import Mathlib

/-!
Shallow embedding of the array-shape module of `src/shape.rs`.

The Rust `Shape` stores its dimensions in a `TinyVec<[usize; 3]>`; inline
versus heap storage is an allocation strategy with no observable behavior, and
element-wise equality is what both the derived `PartialEq` and the slice
comparisons compute, so the faithful value-level model of a shape is the list
of its dimensions.  Machine integers (`usize`) are modelled as `Nat` and
`isize` as `Int`.  The one wrapping conversion in this module is the
`dim as isize` cast inside `i_dims_to_flat`, which reinterprets the word's
bit pattern; it is modelled explicitly at the 64-bit word width by
`usizeAsIsize`.
-/

namespace Uiua

/-- Model of the Rust struct `Shape { dims: TinyVec<[usize; 3]> }`:
an ordered sequence of dimension extents, outermost axis first. -/
structure Shape where
  dims : List Nat
  deriving DecidableEq, Repr

namespace Shape

/-- Model of `Shape::SCALAR`: a shape with no dimensions. -/
def SCALAR : Shape := ⟨[]⟩

/-- Model of `Shape::EMPTY_LIST`: the rank-1 shape `[0]`. -/
def EMPTY_LIST : Shape := ⟨[0]⟩

/-- Model of `Shape::row_count`: `self.dims.first().copied().unwrap_or(1)`. -/
def row_count (s : Shape) : Nat := s.dims.headD 1

/-- Model of `Shape::row_len`: `self.dims.iter().skip(1).product()`. -/
def row_len (s : Shape) : Nat := (s.dims.drop 1).prod

/-- Model of `Shape::elements`: `self.iter().product()`. -/
def elements (s : Shape) : Nat := s.dims.prod

/-- Model of `Shape::make_row`: `if !self.is_empty() { self.dims.remove(0); }`. -/
def make_row (s : Shape) : Shape :=
  if s.dims.isEmpty then s else ⟨s.dims.eraseIdx 0⟩

/-- Model of `Shape::row`: clone, then `make_row`. -/
def row (s : Shape) : Shape := s.make_row

/-- Model of `Shape::deshape`: if the rank is not 1, replace the dims with the
single dimension `elements()`. -/
def deshape (s : Shape) : Shape :=
  if s.dims.length ≠ 1 then ⟨[s.elements]⟩ else s

/-- Model of `Shape::fix_depth`: clamp `depth` to the rank, insert a
1-dimension there, and return the mutated shape together with the clamped
position (the Rust method mutates `self` and returns the position). -/
def fix_depth (s : Shape) (depth : Nat) : Shape × Nat :=
  let d := min depth s.dims.length
  (⟨s.dims.insertIdx d 1⟩, d)

/-- Model of `Shape::fix`: `self.fix_depth(0)`, discarding the returned
position. -/
def fix (s : Shape) : Shape := (s.fix_depth 0).1

/-- Model of the custom `fmt::Debug` impl for `Shape`: dimensions joined by
the separator `" × "` inside square brackets. -/
def debugFmt (s : Shape) : String :=
  "[" ++ String.intercalate (" × ") (s.dims.map toString) ++ "]"

/-- Model of `Shape::unfix_inner`, which returns the removed first dimension:
`[1, ..]` removes the leading 1 and yields it; `[a, b, ..]` writes `a * b`
into the second slot, removes the first, and yields `a`; anything else (rank
less than 2 with first dim not 1) leaves the shape alone and yields nothing.
The pair is (mutated shape, returned Option). -/
def unfix_inner (s : Shape) : Shape × Option Nat :=
  match s.dims with
  | 1 :: rest => (⟨rest⟩, some 1)
  | a :: b :: rest => (⟨(a * b) :: rest⟩, some a)
  | _ => (s, none)

/-- Model of `Shape::unfix`: run `unfix_inner`, then classify the outcome.
Note that the `contains(&0)` and `is_empty()` guards inspect the shape after
`unfix_inner` ran (in the `None` case it did not mutate). -/
def unfix (s : Shape) : Shape × Except String Unit :=
  match s.unfix_inner with
  | (s₁, some 1) => (s₁, Except.ok ())
  | (s₁, some d) =>
    (s₁, Except.error ("Cannot unfix array with length " ++ toString d))
  | (s₁, none) =>
    if s₁.dims.contains 0 then (s₁, Except.error ("Cannot unfix empty array"))
    else if s₁.dims.isEmpty then (s₁, Except.error ("Cannot unfix scalar"))
    else (s₁, Except.error ("Cannot unfix array with shape " ++ s₁.debugFmt))

/-- Model of `Shape::undo_fix`: `unfix_inner`, discarding the report. -/
def undo_fix (s : Shape) : Shape := s.unfix_inner.1

/-- Loop of `Shape::flat_to_dims`: for each dim of the reversed dims list,
push `flat % dim` and continue with `flat / dim`.  Rust's `%`/`/` panic when
a dim is 0; every claim about this function assumes all dims positive, where
Lean's total `%`/`/` agree with Rust. -/
def flatToDimsLoop : List Nat → Nat → List Nat → List Nat
  | [], _, index => index
  | dim :: rest, flat, index => flatToDimsLoop rest (flat / dim) (index ++ [flat % dim])

/-- Model of `Shape::flat_to_dims`: the output buffer is cleared first, so the
result is exactly the pushed remainders, reversed into outermost-first order.
We return the written buffer. -/
def flat_to_dims (s : Shape) (flat : Nat) : List Nat :=
  (flatToDimsLoop s.dims.reverse flat []).reverse

/-- Loop of `Shape::dims_to_flat` over the zipped (dim, coordinate) pairs:
return `None` as soon as a coordinate reaches its dim, else accumulate
`flat = flat * dim + i`. -/
def dimsToFlatLoop : List (Nat × Nat) → Nat → Option Nat
  | [], flat => some flat
  | (dim, i) :: rest, flat =>
    if dim ≤ i then none else dimsToFlatLoop rest (flat * dim + i)

/-- Model of `Shape::dims_to_flat`: `self.dims.iter().zip(index)` pairs dims
with coordinates, truncating to the shorter of the two. -/
def dims_to_flat (s : Shape) (index : List Nat) : Option Nat :=
  dimsToFlatLoop (s.dims.zip index) 0

/-- Model of the Rust cast `dim as isize` on the 64-bit target: the
two's-complement reinterpretation of a 64-bit `usize` value (a `usize` is
below 2^64 in the source), which is negative from 2^63 upward. -/
def usizeAsIsize (n : Nat) : Int :=
  if n < 2 ^ 63 then (n : Int) else (n : Int) - 2 ^ 64

/-- Loop of `Shape::i_dims_to_flat`: like `dimsToFlatLoop` but coordinates
are signed.  The guard is `i < 0 || i >= dim as isize`, where the cast wraps
(`usizeAsIsize`); the accumulating cast `i as usize` is reached only when
`0 ≤ i`, where it is exact (`Int.toNat`). -/
def iDimsToFlatLoop : List (Nat × Int) → Nat → Option Nat
  | [], flat => some flat
  | (dim, i) :: rest, flat =>
    if i < 0 ∨ usizeAsIsize dim ≤ i then none
    else iDimsToFlatLoop rest (flat * dim + i.toNat)

/-- Model of `Shape::i_dims_to_flat`. -/
def i_dims_to_flat (s : Shape) (index : List Int) : Option Nat :=
  iDimsToFlatLoop (s.dims.zip index) 0

/-- Model of the derived `PartialEq` between two `Shape`s: the `dims`
sequences compare element-wise. -/
def eqShape (a b : Shape) : Bool := a.dims == b.dims

/-- Model of `impl PartialEq<[usize]> for Shape` (and the `&Shape` /
`&[usize]` reference variants, which defer to it): `self.dims == other`. -/
def eqSlice (s : Shape) (other : List Nat) : Bool := s.dims == other

/-- Model of `impl PartialEq<[usize; N]> for Shape`: `self == other.as_slice()`.
A fixed-size array is modelled by the list of its elements. -/
def eqArray (s : Shape) (other : List Nat) : Bool := s.eqSlice other

/-- Model of `impl PartialEq<usize> for Shape`: `self == [*other]`. -/
def eqUsize (s : Shape) (n : Nat) : Bool := s.eqArray [n]

/-- Model of `impl PartialEq<Shape> for [usize]` (and the `&[usize]` variant):
`other == self`, deferring to the slice comparison above. -/
def sliceEqShape (other : List Nat) (s : Shape) : Bool := s.eqSlice other

/-- The left/right operand type of an equality comparison involving `Shape`
that `src/shape.rs` provides.  `scalar` is `usize`, `fixedArray` is
`[usize; N]`, `slice` is `[usize]` (references to these types defer to the
unreferenced impls and are not listed separately). -/
inductive EqOperand
  | shape
  | scalar
  | fixedArray
  | slice
  deriving DecidableEq, Repr

/-- Transcription of the `PartialEq` impl surface of `src/shape.rs`
(lines 12 and 281-331): which ordered operand pairs have an `==` defined.
The derived impl gives Shape == Shape; the explicit impls give
Shape == usize, Shape == [usize; N], Shape == [usize], and the reverse
direction only for slices ([usize] == Shape).  No impl puts a bare `usize`
or a fixed-size array on the left of a `Shape`. -/
def hasEqImpl : EqOperand → EqOperand → Bool
  | .shape, .shape => true
  | .shape, .scalar => true
  | .shape, .fixedArray => true
  | .shape, .slice => true
  | .slice, .shape => true
  | _, _ => false

end Shape

open Shape

/-! Helper lemmas about the loops. -/

theorem dimsToFlatLoop_eq_some (pairs : List (Nat × Nat)) (flat : Nat)
    (h : ∀ p ∈ pairs, p.2 < p.1) :
    dimsToFlatLoop pairs flat
      = some (pairs.foldl (fun f p => f * p.1 + p.2) flat) := by
  induction pairs generalizing flat with
  | nil => rfl
  | cons p rest ih =>
    obtain ⟨dim, i⟩ := p
    have hi : i < dim := h (dim, i) (List.mem_cons_self _ _)
    simp only [dimsToFlatLoop, List.foldl_cons]
    rw [if_neg (by omega)]
    exact ih _ (fun q hq => h q (List.mem_cons_of_mem _ hq))

theorem dimsToFlatLoop_eq_none_iff (pairs : List (Nat × Nat)) (flat : Nat) :
    (dimsToFlatLoop pairs flat = none ↔ ∃ p ∈ pairs, p.1 ≤ p.2) := by
  induction pairs generalizing flat with
  | nil => simp [dimsToFlatLoop]
  | cons p rest ih =>
    obtain ⟨dim, i⟩ := p
    by_cases hc : dim ≤ i
    · simp [dimsToFlatLoop, hc]
    · simp [dimsToFlatLoop, hc, ih]

theorem dimsToFlatLoop_lt (pairs : List (Nat × Nat)) (flat f : Nat)
    (h : dimsToFlatLoop pairs flat = some f) :
    f < (flat + 1) * (pairs.map Prod.fst).prod := by
  induction pairs generalizing flat with
  | nil =>
    simp only [dimsToFlatLoop, Option.some.injEq] at h
    simp [← h, Nat.lt_succ_self flat]
  | cons p rest ih =>
    obtain ⟨dim, i⟩ := p
    by_cases hc : dim ≤ i
    · simp [dimsToFlatLoop, hc] at h
    · rw [dimsToFlatLoop, if_neg hc] at h
      have hb := ih _ h
      have hstep : flat * dim + i + 1 ≤ (flat + 1) * dim := by
        have : i + 1 ≤ dim := by omega
        calc flat * dim + i + 1 ≤ flat * dim + dim := by omega
          _ = (flat + 1) * dim := by ring
      have hmul : (flat * dim + i + 1) * (rest.map Prod.fst).prod
          ≤ ((flat + 1) * dim) * (rest.map Prod.fst).prod :=
        Nat.mul_le_mul_right _ hstep
      have : f < ((flat + 1) * dim) * (rest.map Prod.fst).prod :=
        lt_of_lt_of_le hb hmul
      simpa [List.map_cons, List.prod_cons, mul_assoc] using this

theorem flatToDimsLoop_append (rdims : List Nat) (flat : Nat) (acc : List Nat) :
    flatToDimsLoop rdims flat acc = acc ++ flatToDimsLoop rdims flat [] := by
  induction rdims generalizing flat acc with
  | nil => simp [flatToDimsLoop]
  | cons d rest ih =>
    simp only [flatToDimsLoop]
    rw [ih (flat / d) (acc ++ [flat % d]), ih (flat / d) ([] ++ [flat % d])]
    simp

theorem flatToDimsLoop_decode (rpairs : List (Nat × Nat))
    (h : ∀ p ∈ rpairs, p.2 < p.1) :
    flatToDimsLoop (rpairs.map Prod.fst)
        (rpairs.foldr (fun p acc => acc * p.1 + p.2) 0) []
      = rpairs.map Prod.snd := by
  induction rpairs with
  | nil => rfl
  | cons p rest ih =>
    obtain ⟨dim, i⟩ := p
    have hi : i < dim := h (dim, i) (List.mem_cons_self _ _)
    have hdim : 0 < dim := lt_of_le_of_lt (Nat.zero_le _) hi
    simp only [List.map_cons, List.foldr_cons, flatToDimsLoop]
    rw [flatToDimsLoop_append]
    have hmod : (rest.foldr (fun p acc => acc * p.1 + p.2) 0 * dim + i) % dim = i := by
      rw [mul_comm, Nat.mul_add_mod, Nat.mod_eq_of_lt hi]
    have hdiv : (rest.foldr (fun p acc => acc * p.1 + p.2) 0 * dim + i) / dim
        = rest.foldr (fun p acc => acc * p.1 + p.2) 0 := by
      rw [mul_comm, Nat.mul_add_div hdim, Nat.div_eq_of_lt hi, Nat.add_zero]
    rw [hmod, hdiv, ih (fun q hq => h q (List.mem_cons_of_mem _ hq))]
    rfl

theorem zip_eq_zip_take (dims coords : List Nat) :
    dims.zip coords = (dims.take coords.length).zip coords := by
  induction dims generalizing coords with
  | nil => simp
  | cons d ds ih =>
    cases coords with
    | nil => simp
    | cons c cs => simp [List.zip_cons_cons, ih cs]

theorem iDimsToFlatLoop_nonneg_eq (dims : List Nat) (index : List Int) (flat : Nat)
    (hdims : ∀ d ∈ dims, d < 2 ^ 63)
    (h : ∀ i ∈ index, 0 ≤ i) :
    iDimsToFlatLoop (dims.zip index) flat
      = dimsToFlatLoop (dims.zip (index.map Int.toNat)) flat := by
  induction dims generalizing index flat with
  | nil => rfl
  | cons d ds ih =>
    cases index with
    | nil => rfl
    | cons i is =>
      have hi : 0 ≤ i := h i (List.mem_cons_self _ _)
      have hd : d < 2 ^ 63 := hdims d (List.mem_cons_self _ _)
      have hcast : usizeAsIsize d = (d : Int) := by
        unfold usizeAsIsize
        exact if_pos hd
      simp only [List.zip_cons_cons, List.map_cons, iDimsToFlatLoop, dimsToFlatLoop,
        hcast]
      by_cases hc : d ≤ i.toNat
      · rw [if_pos (by omega), if_pos hc]
      · rw [if_neg (by omega), if_neg hc]
        exact ih is _ (fun e he => hdims e (List.mem_cons_of_mem _ he))
          (fun j hj => h j (List.mem_cons_of_mem _ hj))

theorem iDimsToFlatLoop_neg (pairs : List (Nat × Int)) (flat : Nat)
    (h : ∃ p ∈ pairs, p.2 < 0) :
    iDimsToFlatLoop pairs flat = none := by
  induction pairs generalizing flat with
  | nil => simp at h
  | cons p rest ih =>
    obtain ⟨dim, i⟩ := p
    simp only [iDimsToFlatLoop]
    by_cases hc : i < 0 ∨ usizeAsIsize dim ≤ i
    · rw [if_pos hc]
    · rw [if_neg hc]
      apply ih
      rcases h with ⟨q, hq, hqneg⟩
      rcases List.mem_cons.mp hq with rfl | hq₂
      · exact absurd (Or.inl hqneg) hc
      · exact ⟨q, hq₂, hqneg⟩

theorem prod_insertIdx_one (n : Nat) (l : List Nat) (h : n ≤ l.length) :
    (l.insertIdx n 1).prod = l.prod := by
  induction l generalizing n with
  | nil =>
    have : n = 0 := Nat.le_zero.mp (by simpa using h)
    subst this
    rfl
  | cons a l ih =>
    cases n with
    | zero => simp
    | succ m =>
      simp only [List.insertIdx_succ_cons, List.prod_cons]
      rw [ih m (by simpa using h)]

theorem fix_eq_cons (s : Shape) : s.fix = ⟨1 :: s.dims⟩ := by
  simp [Shape.fix, Shape.fix_depth]

/-! Claim theorems. -/

/-- Claim C1, counterexample.  The claim says `unfix()` on shape `[5]` fails
reporting length 5 and on `[0,3]` fails reporting that the array is empty.
In the code, `[5]` has rank 1 with first dim not 1, so `unfix_inner` returns
`None` and the report names the shape, not a length; and `[0,3]` has rank 2,
so the merge path runs and the report is the length message for 0, not the
empty-array message. -/
theorem unfix_taxonomy_cex :
    Shape.unfix ⟨[5]⟩
        = (⟨[5]⟩, Except.error ("Cannot unfix array with shape [5]")) ∧
    ("Cannot unfix array with shape [5]" : String)
        ≠ ("Cannot unfix array with length 5") ∧
    Shape.unfix ⟨[0, 3]⟩
        = (⟨[0]⟩, Except.error ("Cannot unfix array with length 0")) ∧
    ("Cannot unfix array with length 0" : String)
        ≠ ("Cannot unfix empty array") :=
  ⟨rfl, by decide, rfl, by decide⟩

/-- Claim C1, amended: the rank-≥-2 merge path takes priority over the
rank-<2 taxonomy, so `[0,3]` reports the merged length 0; `[5]` (rank 1,
first dim ≠ 1, no zero dim) reports the shape's dimensions; the scalar shape
reports scalar; rank-1 `[0]` reports the empty array; and every other rank-1
shape `[d]` with `d ∉ {0, 1}` reports the shape's dimensions. -/
theorem unfix_taxonomy_amended :
    Shape.unfix ⟨[5]⟩
        = (⟨[5]⟩, Except.error ("Cannot unfix array with shape [5]")) ∧
    Shape.unfix ⟨[0, 3]⟩
        = (⟨[0]⟩, Except.error ("Cannot unfix array with length 0")) ∧
    Shape.unfix Shape.SCALAR
        = (Shape.SCALAR, Except.error ("Cannot unfix scalar")) ∧
    Shape.unfix ⟨[0]⟩
        = (⟨[0]⟩, Except.error ("Cannot unfix empty array")) ∧
    (∀ d : Nat, d ≠ 0 → d ≠ 1 →
      Shape.unfix ⟨[d]⟩
        = (⟨[d]⟩,
           Except.error ("Cannot unfix array with shape " ++ Shape.debugFmt ⟨[d]⟩))) :=
  ⟨rfl, rfl, rfl, rfl, fun d h₀ h₁ =>
    match d, h₀, h₁ with
    | 0, h₀, _ => absurd rfl h₀
    | 1, _, h₁ => absurd rfl h₁
    | _ + 2, _, _ => rfl⟩

/-- Claim C1, witness for the amended theorem at the rank-1 shape `[7]`. -/
theorem unfix_taxonomy_amended_witness :
    Shape.unfix ⟨[7]⟩
      = (⟨[7]⟩, Except.error ("Cannot unfix array with shape [7]")) :=
  unfix_taxonomy_amended.2.2.2.2 7 (by decide) (by decide)

/-- Claim C2, counterexample.  On `[2,3]` the merge does happen (the shape
becomes `[6]` and 6 = 2 * 3), but the failure message names the removed first
dimension 2, not the merged dimension's length 2 * 3 = 6. -/
theorem unfix_merge_cex :
    Shape.unfix ⟨[2, 3]⟩
        = (⟨[6]⟩, Except.error ("Cannot unfix array with length 2")) ∧
    ("Cannot unfix array with length 2" : String)
        ≠ ("Cannot unfix array with length " ++ toString (2 * 3)) :=
  ⟨rfl, by decide⟩

/-- Claim C2, amended: for every shape of rank ≥ 2 whose first dimension is
not 1, `unfix()` merges axes 0 and 1 (the new first dim is dim0 * dim1) and
returns a failure whose message names the removed original first dimension's
length, not the merged product. -/
theorem unfix_merge_amended (a b : Nat) (rest : List Nat) (h : a ≠ 1) :
    Shape.unfix ⟨a :: b :: rest⟩
      = (⟨(a * b) :: rest⟩,
         Except.error ("Cannot unfix array with length " ++ toString a)) :=
  match a, h with
  | 0, _ => rfl
  | 1, h => absurd rfl h
  | _ + 2, _ => rfl

/-- Claim C2, witness for the amended theorem at shape `[2,3]`. -/
theorem unfix_merge_amended_witness :
    Shape.unfix ⟨[2, 3]⟩
      = (⟨[6]⟩, Except.error ("Cannot unfix array with length 2")) :=
  unfix_merge_amended 2 3 [] (by decide)

/-- Claim C3: for every shape with all dims positive and every coordinate
vector of length equal to the rank with each coordinate below its dim,
`dims_to_flat` returns a flat offset and `flat_to_dims` maps it back to
exactly the original coordinates. -/
theorem dims_to_flat_roundtrip (dims coords : List Nat)
    (hlen : coords.length = dims.length)
    (_hpos : ∀ d ∈ dims, 0 < d)
    (hvalid : ∀ p ∈ dims.zip coords, p.2 < p.1) :
    ∃ f, Shape.dims_to_flat ⟨dims⟩ coords = some f ∧
      Shape.flat_to_dims ⟨dims⟩ f = coords := by
  have h₁ := dimsToFlatLoop_eq_some (dims.zip coords) 0 hvalid
  refine ⟨(dims.zip coords).foldl (fun (f : Nat) (p : Nat × Nat) => f * p.1 + p.2) 0, h₁, ?_⟩
  have hrp : ∀ p ∈ (dims.zip coords).reverse, p.2 < p.1 :=
    fun p hp => hvalid p (List.mem_reverse.mp hp)
  have hfst : ((dims.zip coords).reverse).map Prod.fst = dims.reverse := by
    rw [List.map_reverse, List.map_fst_zip dims coords (le_of_eq hlen.symm)]
  have hsnd : ((dims.zip coords).reverse).map Prod.snd = coords.reverse := by
    rw [List.map_reverse, List.map_snd_zip dims coords (le_of_eq hlen)]
  have hmain := flatToDimsLoop_decode ((dims.zip coords).reverse) hrp
  rw [hfst, hsnd, List.foldr_reverse] at hmain
  show (flatToDimsLoop dims.reverse _ []).reverse = coords
  rw [hmain, List.reverse_reverse]

/-- Claim C3, witness: shape `[2,3,4]` with coordinates `[1,2,3]` gives the
flat offset 23, and decoding 23 restores `[1,2,3]`. -/
theorem dims_to_flat_roundtrip_witness :
    ∃ f, Shape.dims_to_flat ⟨[2, 3, 4]⟩ [1, 2, 3] = some f ∧
      Shape.flat_to_dims ⟨[2, 3, 4]⟩ f = [1, 2, 3] :=
  dims_to_flat_roundtrip [2, 3, 4] [1, 2, 3] (by decide) (by decide) (by decide)

/-- Claim C4: `dims_to_flat` pairs dims with coordinates in order, truncating
to the coordinate vector's length (trailing axes are ignored); it returns
`none` exactly when some paired coordinate reaches its dim; otherwise it
returns the left fold of `flat = flat * dim + coord` from 0; and coordinates
`[2,0]` against shape `[2,3]` fail. -/
theorem dims_to_flat_spec :
    (∀ dims coords : List Nat,
      Shape.dims_to_flat ⟨dims⟩ coords
        = Shape.dims_to_flat ⟨dims.take coords.length⟩ coords) ∧
    (∀ dims coords : List Nat,
      (Shape.dims_to_flat ⟨dims⟩ coords = none
        ↔ ∃ p ∈ dims.zip coords, p.1 ≤ p.2)) ∧
    (∀ dims coords : List Nat,
      (∀ p ∈ dims.zip coords, p.2 < p.1) →
      Shape.dims_to_flat ⟨dims⟩ coords
        = some ((dims.zip coords).foldl (fun flat p => flat * p.1 + p.2) 0)) ∧
    Shape.dims_to_flat ⟨[2, 3]⟩ [2, 0] = none := by
  refine ⟨?_, ?_, ?_, rfl⟩
  · intro dims coords
    show dimsToFlatLoop (dims.zip coords) 0
      = dimsToFlatLoop ((dims.take coords.length).zip coords) 0
    rw [← zip_eq_zip_take]
  · intro dims coords
    exact dimsToFlatLoop_eq_none_iff _ 0
  · intro dims coords h
    exact dimsToFlatLoop_eq_some _ 0 h

/-- Claim C4, witness: the success branch at shape `[2,3]` with coordinates
`[1,2]` yields the flat offset 5, and the claim's failing example `[2,0]`
yields none. -/
theorem dims_to_flat_spec_witness :
    Shape.dims_to_flat ⟨[2, 3]⟩ [1, 2] = some 5 ∧
    Shape.dims_to_flat ⟨[2, 3]⟩ [2, 0] = none :=
  ⟨(dims_to_flat_spec.2.2.1 [2, 3] [1, 2] (by decide)).trans (by decide),
   dims_to_flat_spec.2.2.2⟩

/-- Claim C9: whenever the coordinate vector covers every axis and
`dims_to_flat` succeeds, the produced flat offset is strictly below
`elements()`, so it is a valid offset into a buffer of `elements()` entries. -/
theorem dims_to_flat_lt_elements (s : Shape) (index : List Nat) (f : Nat)
    (hlen : s.dims.length ≤ index.length)
    (h : s.dims_to_flat index = some f) :
    f < s.elements := by
  have hb := dimsToFlatLoop_lt (s.dims.zip index) 0 f h
  rw [List.map_fst_zip s.dims index hlen] at hb
  simpa [Shape.elements] using hb

/-- Claim C9, witness: shape `[2,3]` with coordinates `[1,2]` produces the
flat offset 5, which is below the element count 6. -/
theorem dims_to_flat_lt_elements_witness : 5 < Shape.elements ⟨[2, 3]⟩ :=
  dims_to_flat_lt_elements ⟨[2, 3]⟩ [1, 2] 5 (by decide) (by decide)

/-- Claim C5, counterexample.  The claim says a rank-1 Shape equals the bare
scalar in either operand order, but `src/shape.rs` defines the comparison
only with the Shape as the left operand (`impl PartialEq<usize> for Shape`
and the `&Shape` variant); there is no impl with the scalar on the left. -/
theorem shape_eq_cex :
    Shape.hasEqImpl EqOperand.shape EqOperand.scalar = true ∧
    Shape.hasEqImpl EqOperand.scalar EqOperand.shape = false := by
  decide

/-- Claim C5, amended: all the comparisons the code defines agree with
equality of dimension sequences — two Shapes are equal iff their dims match,
the Shape-vs-slice comparison agrees with its slice-vs-Shape reverse, the
fixed-size-array form defers to the slice form, and a rank-1 Shape equals the
bare scalar holding its dim; concretely, Shape `[5]` equals 5 and equals the
slice `[5]` (the slice also in reversed operand order), and Shape `[2,3]`
does not equal Shape `[3,2]`.  The reversed operand order exists for the
dynamic slice only: no impl puts a bare scalar or a fixed-size array to the
left of a Shape. -/
theorem shape_eq_amended :
    (∀ a b : Shape, (Shape.eqShape a b = true ↔ a.dims = b.dims)) ∧
    (∀ (s : Shape) (l : List Nat), Shape.eqSlice s l = Shape.sliceEqShape l s) ∧
    (∀ (s : Shape) (l : List Nat), Shape.eqArray s l = Shape.eqSlice s l) ∧
    (∀ (s : Shape) (n : Nat), (Shape.eqUsize s n = true ↔ s.dims = [n])) ∧
    Shape.eqUsize ⟨[5]⟩ 5 = true ∧
    Shape.eqSlice ⟨[5]⟩ [5] = true ∧
    Shape.sliceEqShape [5] ⟨[5]⟩ = true ∧
    Shape.eqShape ⟨[2, 3]⟩ ⟨[3, 2]⟩ = false ∧
    Shape.hasEqImpl EqOperand.shape EqOperand.shape = true ∧
    Shape.hasEqImpl EqOperand.shape EqOperand.scalar = true ∧
    Shape.hasEqImpl EqOperand.shape EqOperand.fixedArray = true ∧
    Shape.hasEqImpl EqOperand.shape EqOperand.slice = true ∧
    Shape.hasEqImpl EqOperand.slice EqOperand.shape = true ∧
    Shape.hasEqImpl EqOperand.scalar EqOperand.shape = false ∧
    Shape.hasEqImpl EqOperand.fixedArray EqOperand.shape = false := by
  refine ⟨fun a b => ?_, fun _ _ => rfl, fun _ _ => rfl, fun s n => ?_,
    rfl, rfl, rfl, rfl, rfl, rfl, rfl, rfl, rfl, rfl, rfl⟩
  · simp [Shape.eqShape]
  · simp [Shape.eqUsize, Shape.eqArray, Shape.eqSlice]

/-- Claim C6: `fix_depth` inserts a unit dimension at position
`min(depth, rank)`, returns that clamped position, increases the rank by 1,
and leaves `elements()` unchanged; `fix()` followed by `unfix()` succeeds and
restores the original shape; and `fix` on `[2,3]` yields `[1,2,3]`. -/
theorem fix_unfix_spec :
    (∀ (s : Shape) (depth : Nat),
      (s.fix_depth depth).1 = ⟨s.dims.insertIdx (min depth s.dims.length) 1⟩ ∧
      (s.fix_depth depth).2 = min depth s.dims.length ∧
      (s.fix_depth depth).1.dims.length = s.dims.length + 1 ∧
      (s.fix_depth depth).1.elements = s.elements) ∧
    (∀ s : Shape, s.fix.unfix = (s, Except.ok ())) ∧
    Shape.fix ⟨[2, 3]⟩ = ⟨[1, 2, 3]⟩ := by
  refine ⟨fun s depth => ⟨rfl, rfl, ?_, ?_⟩, fun s => ?_, ?_⟩
  · exact List.length_insertIdx _ _ (min_le_right _ _)
  · show (s.dims.insertIdx (min depth s.dims.length) 1).prod = s.dims.prod
    exact prod_insertIdx_one _ _ (min_le_right _ _)
  · rw [fix_eq_cons]; simp [Shape.unfix, Shape.unfix_inner]
  · rw [fix_eq_cons]

/-- Claim C7: `elements()` is the product of the dims; the scalar shape has
1 element, the empty-list shape `[0]` has 0 elements, and any shape with a
zero dimension has 0 elements. -/
theorem elements_spec :
    (∀ s : Shape, s.elements = s.dims.prod) ∧
    Shape.SCALAR.elements = 1 ∧
    Shape.EMPTY_LIST.elements = 0 ∧
    (∀ s : Shape, 0 ∈ s.dims → s.elements = 0) :=
  ⟨fun _ => rfl, rfl, rfl, fun _ h => List.prod_eq_zero h⟩

/-- Claim C7, witness: the shape `[2,0,3]` contains a zero dimension, and its
element count is 0. -/
theorem elements_spec_witness : Shape.elements ⟨[2, 0, 3]⟩ = 0 :=
  elements_spec.2.2.2 ⟨[2, 0, 3]⟩ (by decide)

/-- Claim C8: `row_count()` is the first dim (1 for the scalar shape),
`row_len()` is the product of the remaining dims (1 at rank ≤ 1), `row()`
drops the leading axis; and on `[2,3,4]` they give 2, 12, `[3,4]`, with 24
elements. -/
theorem row_ops_spec :
    (∀ (d : Nat) (rest : List Nat),
      Shape.row_count ⟨d :: rest⟩ = d ∧
      Shape.row_len ⟨d :: rest⟩ = rest.prod ∧
      Shape.row ⟨d :: rest⟩ = ⟨rest⟩) ∧
    Shape.row_count Shape.SCALAR = 1 ∧
    Shape.row_len Shape.SCALAR = 1 ∧
    Shape.row Shape.SCALAR = Shape.SCALAR ∧
    Shape.row_count ⟨[2, 3, 4]⟩ = 2 ∧
    Shape.row_len ⟨[2, 3, 4]⟩ = 12 ∧
    Shape.row ⟨[2, 3, 4]⟩ = ⟨[3, 4]⟩ ∧
    Shape.elements ⟨[2, 3, 4]⟩ = 24 :=
  ⟨fun _ _ => ⟨rfl, rfl, rfl⟩, rfl, rfl, rfl, rfl, rfl, rfl, rfl⟩

/-- Claim C10, counterexample.  The claim's equivalence with `dims_to_flat`
fails for dims that do not fit in `isize`: the cast `dim as isize` wraps, so
on the shape `[2^63]` the cast is negative and `i_dims_to_flat` rejects the
non-negative coordinate 5, while `dims_to_flat` on the unsigned conversion
accepts it. -/
theorem i_dims_to_flat_cex :
    Shape.i_dims_to_flat ⟨[2 ^ 63]⟩ [5] = none ∧
    Shape.dims_to_flat ⟨[2 ^ 63]⟩ (([5] : List Int).map Int.toNat) = some 5 ∧
    (∀ i ∈ ([5] : List Int), 0 ≤ i) ∧
    Shape.i_dims_to_flat ⟨[2 ^ 63]⟩ [5]
      ≠ Shape.dims_to_flat ⟨[2 ^ 63]⟩ (([5] : List Int).map Int.toNat) := by
  decide

/-- Claim C10, amended: on every shape all of whose dims are below 2^63
(so the `dim as isize` cast does not wrap on the 64-bit target) and every
coordinate vector whose components are all non-negative, `i_dims_to_flat`
agrees with `dims_to_flat` on the unsigned conversion of the same
coordinates; and on every shape it returns none whenever some paired
coordinate is negative. -/
theorem i_dims_to_flat_refines_amended :
    (∀ (s : Shape) (index : List Int),
      (∀ d ∈ s.dims, d < 2 ^ 63) →
      (∀ i ∈ index, 0 ≤ i) →
      s.i_dims_to_flat index = s.dims_to_flat (index.map Int.toNat)) ∧
    (∀ (s : Shape) (index : List Int),
      (∃ p ∈ s.dims.zip index, p.2 < 0) →
      s.i_dims_to_flat index = none) :=
  ⟨fun s index hdims h => iDimsToFlatLoop_nonneg_eq s.dims index 0 hdims h,
   fun _ _ h => iDimsToFlatLoop_neg _ 0 h⟩

/-- Claim C10, witness for the amended theorem: on shape `[2,3]` (both dims
below 2^63), the signed coordinates `[1,2]` agree with the unsigned
conversion, and the signed coordinates `[-1,2]` yield none. -/
theorem i_dims_to_flat_refines_amended_witness :
    Shape.i_dims_to_flat ⟨[2, 3]⟩ [1, 2] = Shape.dims_to_flat ⟨[2, 3]⟩ [1, 2] ∧
    Shape.i_dims_to_flat ⟨[2, 3]⟩ [-1, 2] = none := by
  constructor
  · have h := i_dims_to_flat_refines_amended.1 ⟨[2, 3]⟩ [1, 2] (by decide) (by decide)
    simpa using h
  · exact i_dims_to_flat_refines_amended.2 ⟨[2, 3]⟩ [-1, 2] (by decide)

end Uiua
